import Mathlib

/-!
Shallow embedding of the resilience and memory-optimization utilities of the
enterprise-rag-comparison repository
(system-1-local-free/src/utils/resilience.py and
system-1-local-free/src/utils/memory_optimizer.py), together with theorems
settling the frozen claims about them.

Modelling conventions:
* Python time.time() is modelled by an explicit natural-number clock passed
  to every operation (the code only compares time differences to timeouts).
* Python exceptions are modelled by the inductive type PyErr; a raising call
  is a value of Except PyErr α.
* Delays are rationals (the code computes them with real arithmetic and only
  sleeps; the sleep itself has no further observable effect in the model).
* Effectful wrapped calls are state-passing functions on SysState, which
  records the circuit-breaker object and invocation counters.
-/

namespace RagResilience

/-- Python exception values observable in resilience.py.
underlying n tags the n-th distinct error raised by a raw call or a
fallback strategy; circuitOpen is the Exception raised at resilience.py:65
when the breaker is open; allStrategiesFailed is the Exception with a fixed
message raised at resilience.py:271; raiseNone models the TypeError from
raising last_exception = None at resilience.py:176 (reachable only with
max_attempts = 0); retryExhausted is NOT raised anywhere in the code — it is
modelled from the spec, which says the retry executor raises a
RetryExhaustedError wrapping the last underlying error. -/
inductive PyErr : Type where
  | underlying (n : Nat)
  | circuitOpen
  | allStrategiesFailed
  | raiseNone
  | retryExhausted (e : PyErr)
deriving DecidableEq, Repr

/-- Equality of Python call outcomes is decidable (used to evaluate the
model on concrete scenarios). -/
instance {ε α : Type} [DecidableEq ε] [DecidableEq α] : DecidableEq (Except ε α)
  | .ok a, .ok b => if h : a = b then .isTrue (by rw [h]) else .isFalse (by simp [h])
  | .ok _, .error _ => .isFalse (by simp)
  | .error _, .ok _ => .isFalse (by simp)
  | .error a, .error b => if h : a = b then .isTrue (by rw [h]) else .isFalse (by simp [h])

/-- ServiceStatus enum of resilience.py:17. -/
inductive ServiceStatus : Type where
  | healthy
  | degraded
  | failing
  | unavailable
deriving DecidableEq, Repr

/-- CircuitBreakerState enum of resilience.py:24. -/
inductive CircuitBreakerState : Type where
  | closed
  | open_
  | half_open
deriving DecidableEq, Repr

/-- CircuitBreaker object of resilience.py:30: configuration plus the
mutable fields failure_count, last_failure_time and state. -/
structure CircuitBreaker : Type where
  failure_threshold : Nat
  timeout : Nat
  failure_count : Nat
  last_failure_time : Option Nat
  state : CircuitBreakerState
deriving DecidableEq, Repr

/-- A freshly constructed breaker (resilience.py:33, constructor defaults
for the mutable fields: failure_count = 0, last_failure_time = None,
state = CLOSED). -/
def CircuitBreaker.fresh (failure_threshold timeout : Nat) : CircuitBreaker :=
  { failure_threshold := failure_threshold
    timeout := timeout
    failure_count := 0
    last_failure_time := none
    state := .closed }

/-- CircuitBreaker._should_attempt_reset (resilience.py:77): the time since
the last failure has reached the timeout.  The None case of
last_failure_time is unreachable on this path (state OPEN implies a recorded
failure); it is defaulted to time 0. -/
def CircuitBreaker.should_attempt_reset (cb : CircuitBreaker) (now : Nat) : Bool :=
  cb.timeout ≤ now - cb.last_failure_time.getD 0

/-- CircuitBreaker._on_success (resilience.py:81). -/
def CircuitBreaker.on_success (cb : CircuitBreaker) : CircuitBreaker :=
  { cb with failure_count := 0, state := .closed }

/-- CircuitBreaker._on_failure (resilience.py:86): increment the failure
count, record the failure time, and open the breaker when the count reaches
the threshold. -/
def CircuitBreaker.on_failure (cb : CircuitBreaker) (now : Nat) : CircuitBreaker :=
  let cb := { cb with
    failure_count := cb.failure_count + 1
    last_failure_time := some now }
  if cb.failure_threshold ≤ cb.failure_count then
    { cb with state := .open_ }
  else
    cb

/-- Observable state threaded through a composed resilient call: the
breaker object, the number of invocations of the raw wrapped function, and
the number of invocations of fallback strategies. -/
structure SysState : Type where
  cb : CircuitBreaker
  rawCount : Nat
  fbCount : Nat
deriving DecidableEq, Repr

/-- An effectful call: takes the system state, returns the Python result
(value or raised exception) and the new state. -/
def StCall (α : Type) : Type := SysState → Except PyErr α × SysState

/-- The raw wrapped function: its behavior maps the invocation index to the
outcome of that invocation; each call bumps the invocation counter. -/
def rawCall (behavior : Nat → Except PyErr Nat) : StCall Nat :=
  fun s => (behavior s.rawCount, { s with rawCount := s.rawCount + 1 })

/-- CircuitBreaker.__call__ wrapper (resilience.py:55-75): while OPEN and
before the timeout, raise the circuit-open Exception without invoking the
inner call; while OPEN with the timeout elapsed, move to HALF_OPEN and
proceed; otherwise invoke the inner call and update the breaker through
_on_success / _on_failure. -/
def cbWrapCall (now : Nat) (inner : StCall Nat) : StCall Nat :=
  fun s =>
    if s.cb.state = .open_ ∧ ¬ s.cb.should_attempt_reset now then
      (.error .circuitOpen, s)
    else
      let s1 := if s.cb.state = .open_ then
        { s with cb := { s.cb with state := .half_open } } else s
      match inner s1 with
      | (.ok v, s2) => (.ok v, { s2 with cb := s2.cb.on_success })
      | (.error e, s2) => (.error e, { s2 with cb := s2.cb.on_failure now })

/-- Loop body of AdvancedRetry.__call__ (resilience.py:144-178), stateful
form: remaining is the number of loop iterations left
(max_attempts - attempt); on a failure of the last iteration the underlying
exception is re-raised; when the loop runs zero times (max_attempts = 0),
raise last_exception = None (resilience.py:176). -/
def retryGoSt (inner : StCall Nat) : Nat → StCall Nat
  | 0, s => (.error .raiseNone, s)
  | remaining + 1, s =>
    match inner s with
    | (.ok v, s1) => (.ok v, s1)
    | (.error e, s1) =>
      if remaining = 0 then (.error e, s1)
      else retryGoSt inner remaining s1

/-- AdvancedRetry.__call__ wrapper, stateful form: run the loop for
max_attempts iterations.  The sleep between attempts has no observable
effect on SysState. -/
def retryWrapCall (max_attempts : Nat) (inner : StCall Nat) : StCall Nat :=
  retryGoSt inner max_attempts

/-- FallbackManager._try_fallback_strategies (resilience.py:259-271),
stateful form: try the registered strategies in order, return the first
success; when all fail, raise the fixed all-strategies-failed Exception. -/
def tryFbSt (strategies : List (StCall Nat)) : StCall Nat :=
  fun s =>
    match strategies with
    | [] => (.error .allStrategiesFailed, s)
    | f :: rest =>
      match f s with
      | (.ok v, s1) => (.ok v, s1)
      | (.error _, s1) => tryFbSt rest s1

/-- FallbackManager.execute_with_fallback (resilience.py:251-257), stateful
form: run the primary; on any exception, fall through to the strategies. -/
def fallbackSt (primary : StCall Nat) (strategies : List (StCall Nat)) : StCall Nat :=
  fun s =>
    match primary s with
    | (.ok v, s1) => (.ok v, s1)
    | (.error _, s1) => tryFbSt strategies s1

/-- resilient_function decorator (resilience.py:353-395), transcribed
statement by statement: first the breaker is applied to the raw function
(when enabled), then the retry decorator is applied to the result, and the
final wrapper routes through execute_with_fallback exactly when fallback
strategies were supplied. -/
def resilient_function (now max_attempts : Nat) (enable_circuit_breaker : Bool)
    (fallback_strategies : Option (List (StCall Nat))) (func : StCall Nat) : StCall Nat :=
  let func := if enable_circuit_breaker then cbWrapCall now func else func
  let func := retryWrapCall max_attempts func
  match fallback_strategies with
  | some strategies => fallbackSt func strategies
  | none => func

/-- Loop body of AdvancedRetry.__call__ (resilience.py:144-178), pure form
over the sequence of outcomes of the inner call: calls maps the attempt
index to the outcome of that attempt; delay maps the attempt index to the
(possibly jittered) delay slept after that attempt fails non-finally.
Returns the Python result, the number of invocations of the inner call, and
the list of delays actually slept.  The first argument is the attempt
index, the second the number of loop iterations left. -/
def retryGo (calls : Nat → Except PyErr Nat) (delay : Nat → ℚ) :
    Nat → Nat → Except PyErr Nat × Nat × List ℚ
  | _, 0 => (.error .raiseNone, 0, [])
  | attempt, remaining + 1 =>
    match calls attempt with
    | .ok v => (.ok v, 1, [])
    | .error e =>
      if remaining = 0 then (.error e, 1, [])
      else
        let r := retryGo calls delay (attempt + 1) remaining
        (r.1, r.2.1 + 1, delay attempt :: r.2.2)

/-- AdvancedRetry.__call__, pure form: run the loop from attempt 0 with
max_attempts iterations left. -/
def retryRun (calls : Nat → Except PyErr Nat) (delay : Nat → ℚ)
    (max_attempts : Nat) : Except PyErr Nat × Nat × List ℚ :=
  retryGo calls delay 0 max_attempts

namespace RetryStrategy

/-- RetryStrategy.exponential_backoff (resilience.py:98-102). -/
def exponential_backoff (attempt : Nat) (base_delay max_delay : ℚ) : ℚ :=
  let delay := base_delay * 2 ^ attempt
  min delay max_delay

/-- RetryStrategy.linear_backoff (resilience.py:104-107). -/
def linear_backoff (attempt : Nat) (base_delay increment : ℚ) : ℚ :=
  base_delay + (attempt : ℚ) * increment

/-- RetryStrategy.fixed_delay (resilience.py:109-112). -/
def fixed_delay (_attempt : Nat) (delay : ℚ) : ℚ :=
  delay

end RetryStrategy

/-- Jitter application of AdvancedRetry.__call__ (resilience.py:164-166):
delay *= (0.5 + random.random()), where r models the draw of
random.random(), which lies in [0, 1). -/
def apply_jitter (delay : ℚ) (r : ℚ) : ℚ :=
  delay * (1 / 2 + r)

namespace FallbackManager

/-- FallbackManager._try_fallback_strategies (resilience.py:259-271), pure
form: each registered strategy is modelled by the outcome of invoking it
once with the given arguments; strategies are tried in registration order
and the first success is returned; when every strategy fails, the fixed
all-strategies-failed Exception is raised. -/
def try_fallback_strategies : List (Except PyErr Nat) → Except PyErr Nat
  | [] => .error .allStrategiesFailed
  | s :: rest =>
    match s with
    | .ok v => .ok v
    | .error _ => try_fallback_strategies rest

/-- FallbackManager.execute_with_fallback (resilience.py:251-257), pure
form: return the primary outcome when it succeeds, otherwise fall through
to the strategies. -/
def execute_with_fallback (primary : Except PyErr Nat)
    (strategies : List (Except PyErr Nat)) : Except PyErr Nat :=
  match primary with
  | .ok v => .ok v
  | .error _ => try_fallback_strategies strategies

end FallbackManager

/-- Per-service record of ServiceHealthChecker (resilience.py:180): the
current status and failure count of one registered service. -/
structure ServiceHealth : Type where
  status : ServiceStatus
  failure_count : Nat
deriving DecidableEq, Repr

/-- ServiceHealthChecker._handle_service_failure (resilience.py:217-227). -/
def handle_service_failure (h : ServiceHealth) : ServiceHealth :=
  let failure_count := h.failure_count + 1
  if 5 ≤ failure_count then
    { status := .unavailable, failure_count := failure_count }
  else if 3 ≤ failure_count then
    { status := .failing, failure_count := failure_count }
  else
    { status := .degraded, failure_count := failure_count }

/-- ServiceHealthChecker.check_service_health (resilience.py:196-215) for
one registered service: outcome is the result of health_check_func() — a
Boolean, or a raised exception, which is handled like an unhealthy
report. -/
def check_service_health (h : ServiceHealth) (outcome : Except PyErr Bool) :
    ServiceHealth :=
  match outcome with
  | .ok true => { status := .healthy, failure_count := 0 }
  | .ok false => handle_service_failure h
  | .error _ => handle_service_failure h

/-- Events of one execution of the CircuitBreaker.__call__ wrapper
(resilience.py:58-73), recording lock operations and the inner
invocation. -/
inductive LockEvent : Type where
  | acquire
  | release
  | rejectOpen
  | invokeInner
  | stateUpdate
deriving DecidableEq, Repr

/-- Event trace of one execution of the CircuitBreaker.__call__ wrapper
(resilience.py:58-73), transcribed from its lexical structure: the entire
body — the open-state check, the inner invocation and the success/failure
state update — sits inside the with self._lock block, so acquire is emitted
first and release last on every path (the with statement releases the lock
also when the body raises). -/
def cbCallEvents (cb : CircuitBreaker) (now : Nat) : List LockEvent :=
  let body : List LockEvent :=
    if cb.state = .open_ ∧ ¬ cb.should_attempt_reset now then
      [.rejectOpen]
    else
      [.invokeInner, .stateUpdate]
  .acquire :: body ++ [.release]

/-- Whether some inner invocation happens while the lock is held: scanning
the trace left to right, an invokeInner occurring after strictly more
acquire events than release events. -/
def heldDuringInner : List LockEvent → Nat → Bool
  | [], _ => false
  | .acquire :: rest, depth => heldDuringInner rest (depth + 1)
  | .release :: rest, depth => heldDuringInner rest (depth - 1)
  | .invokeInner :: rest, depth => if 0 < depth then true else heldDuringInner rest depth
  | _ :: rest, depth => heldDuringInner rest depth

/-- Iterate an effectful call n times, discarding results (used to model a
sequence of calls through the same wrapped function). -/
def iterCalls (f : StCall Nat) : Nat → SysState → SysState
  | 0, s => s
  | n + 1, s => iterCalls f n (f s).2

/-- System states reachable from a freshly wrapped service by any sequence
of calls through the circuit-breaker wrapper around the raw function, at
arbitrary times and with arbitrary raw behaviors. -/
inductive ReachSt (T tmo : Nat) : SysState → Prop where
  | init (rc fc : Nat) :
      ReachSt T tmo { cb := CircuitBreaker.fresh T tmo, rawCount := rc, fbCount := fc }
  | step (now : Nat) (behavior : Nat → Except PyErr Nat) (s : SysState) :
      ReachSt T tmo s → ReachSt T tmo (cbWrapCall now (rawCall behavior) s).2

/-- Raw behavior for the composition-order scenario: every invocation fails
with a distinct error. -/
def cexFailBehavior : Nat → Except PyErr Nat := fun n => .error (.underlying n)

/-- Fallback strategy for the composition-order scenario: always succeeds
with 100 and bumps the strategy invocation counter. -/
def cexStrategy : StCall Nat :=
  fun s => (.ok 100, { s with fbCount := s.fbCount + 1 })

/-- Start state for the composition-order scenario: fresh breaker with
threshold 2 and timeout 60, counters at zero. -/
def cexStart : SysState :=
  { cb := .fresh 2 60, rawCount := 0, fbCount := 0 }

/-- Modelled from the spec: composition in the nesting order the spec
states for the wrap contract — CircuitBreaker outermost, then the retry
executor, then the fallback chain around the raw call. -/
def specOrderWrap (now max_attempts : Nat) (strategies : List (StCall Nat))
    (func : StCall Nat) : StCall Nat :=
  cbWrapCall now (retryWrapCall max_attempts (fallbackSt func strategies))

end RagResilience

namespace RagMemOpt

/-- LRUCache of memory_optimizer.py:112: keys are naturals (the decorator
builds string keys from the arguments; distinct arguments give distinct
keys), values are Python values where none models the Python value None.
cache is the OrderedDict in recency order, head = least recently used,
last = most recently used; timestamps is the dict key → insertion time. -/
structure LRUCache : Type where
  max_size : Nat
  ttl : Option Nat
  cache : List (Nat × Option Nat)
  timestamps : List (Nat × Nat)
  hits : Nat
  misses : Nat
deriving DecidableEq, Repr

/-- A freshly constructed cache (memory_optimizer.py:115-129). -/
def LRUCache.init (max_size : Nat) (ttl : Option Nat) : LRUCache :=
  { max_size := max_size, ttl := ttl, cache := [], timestamps := [],
    hits := 0, misses := 0 }

/-- Membership test key in self._cache (dict membership). -/
def LRUCache.mem (c : LRUCache) (key : Nat) : Bool :=
  c.cache.any (fun p => p.1 == key)

/-- Timestamp lookup self._timestamps[key]; the key is present whenever
this is evaluated (timestamps is kept in sync with cache), so the default
is never reached. -/
def tsLookup (key : Nat) (ts : List (Nat × Nat)) : Nat :=
  (ts.lookup key).getD 0

/-- Timestamp update self._timestamps[key] = now (dict assignment:
overwrite the entry when present, add it otherwise). -/
def tsSet (key now : Nat) (ts : List (Nat × Nat)) : List (Nat × Nat) :=
  if ts.any (fun p => p.1 == key) then
    ts.map (fun p => if p.1 == key then (key, now) else p)
  else
    ts ++ [(key, now)]

/-- LRUCache._remove (memory_optimizer.py:164-167): pop the key from both
dicts (a dict holds at most one entry per key, so removing the first
matching entry removes the entry). -/
def LRUCache.remove (c : LRUCache) (key : Nat) : LRUCache :=
  { c with
    cache := c.cache.eraseP (fun p => p.1 == key)
    timestamps := c.timestamps.eraseP (fun p => p.1 == key) }

/-- LRUCache.get (memory_optimizer.py:131-148): miss on an absent key; on a
present key whose age exceeds a truthy ttl, remove it lazily and miss;
otherwise pop the entry and re-append it (move to most-recently-used) and
return the stored value.  The Python return value is none both on a miss
and when the stored value is None. -/
def LRUCache.get (c : LRUCache) (now key : Nat) : Option Nat × LRUCache :=
  if ¬ c.mem key then
    (none, { c with misses := c.misses + 1 })
  else
    let t := c.ttl.getD 0
    if t ≠ 0 ∧ t < now - tsLookup key c.timestamps then
      let c := c.remove key
      (none, { c with misses := c.misses + 1 })
    else
      let value := (c.cache.lookup key).getD none
      (value,
        { c with
          cache := c.cache.eraseP (fun p => p.1 == key) ++ [(key, value)]
          hits := c.hits + 1 })

/-- LRUCache.put (memory_optimizer.py:150-162): an existing key is popped
from the OrderedDict (and re-appended below, moving it to
most-recently-used); a new key at capacity first evicts the first entry of
the OrderedDict, the least recently used one.  next(iter()) on an empty
dict would raise StopIteration; that path is unreachable when
max_size ≥ 1 and is modelled as inserting without evicting. -/
def LRUCache.put (c : LRUCache) (now key : Nat) (value : Option Nat) : LRUCache :=
  let c :=
    if c.mem key then
      { c with cache := c.cache.eraseP (fun p => p.1 == key) }
    else if c.max_size ≤ c.cache.length then
      match c.cache.head? with
      | some oldest => c.remove oldest.1
      | none => c
    else
      c
  { c with
    cache := c.cache ++ [(key, value)]
    timestamps := tsSet key now c.timestamps }

/-- LRUCache.clear (memory_optimizer.py:169-173). -/
def LRUCache.clear (c : LRUCache) : LRUCache :=
  { c with cache := [], timestamps := [] }

/-- One operation of the cache interface. -/
inductive CacheOp : Type where
  | get (now key : Nat)
  | put (now key : Nat) (value : Option Nat)
  | clear
deriving DecidableEq, Repr

/-- Apply one operation (the result of a get is discarded). -/
def applyOp (c : LRUCache) : CacheOp → LRUCache
  | .get now key => (c.get now key).2
  | .put now key value => c.put now key value
  | .clear => c.clear

/-- Apply a sequence of operations in order. -/
def applyOps (c : LRUCache) (ops : List CacheOp) : LRUCache :=
  ops.foldl applyOp c

/-- Body of the memory_optimized wrapper (memory_optimizer.py:321-335) for
one call: look the key up; any non-None cached result is returned without
invoking the function; otherwise the function is invoked (the counter n
counts its invocations) and its result is cached.  func maps the argument
to the returned Python value (none models returning None); the cache key
is the argument. -/
def memoApply (now : Nat) (func : Nat → Option Nat) (a : Nat)
    (st : LRUCache × Nat) : Option Nat × LRUCache × Nat :=
  let r := st.1.get now a
  match r.1 with
  | some v => (some v, r.2, st.2)
  | none =>
    let v := func a
    (v, (r.2.put now a v, st.2 + 1))

/-- m successive calls of the memoized wrapper on the same argument,
starting from the dedicated cache the decorator creates
(memory_optimizer.py:314-319) and a zero invocation counter. -/
def memoCalls (now : Nat) (func : Nat → Option Nat) (a : Nat)
    (max_size : Nat) (ttl : Option Nat) : Nat → LRUCache × Nat
  | 0 => (LRUCache.init max_size ttl, 0)
  | m + 1 => (memoApply now func a (memoCalls now func a max_size ttl m)).2

end RagMemOpt

namespace RagResilience

/-! Helper lemmas about the circuit breaker. -/

theorem on_failure_of_lt (cb : CircuitBreaker) (now : Nat)
    (h : cb.failure_count + 1 < cb.failure_threshold) :
    cb.on_failure now =
      { cb with failure_count := cb.failure_count + 1, last_failure_time := some now } := by
  simp [CircuitBreaker.on_failure, Nat.not_le.mpr h]

theorem on_failure_of_ge (cb : CircuitBreaker) (now : Nat)
    (h : cb.failure_threshold ≤ cb.failure_count + 1) :
    cb.on_failure now =
      { cb with failure_count := cb.failure_count + 1, last_failure_time := some now,
                state := .open_ } := by
  simp [CircuitBreaker.on_failure, h]

theorem cbWrapCall_closed_error (now : Nat) (behavior : Nat → Except PyErr Nat)
    (s : SysState) (hc : s.cb.state = .closed) (e : PyErr)
    (he : behavior s.rawCount = .error e) :
    cbWrapCall now (rawCall behavior) s =
      (.error e, { s with cb := s.cb.on_failure now, rawCount := s.rawCount + 1 }) := by
  simp [cbWrapCall, rawCall, hc, he]

theorem iter_fail_opens (now : Nat) (behavior : Nat → Except PyErr Nat)
    (hb : ∀ n, ∃ e, behavior n = .error e) :
    ∀ (i : Nat) (s : SysState), s.cb.state = .closed →
      s.cb.failure_count + i = s.cb.failure_threshold → 1 ≤ i →
      (iterCalls (cbWrapCall now (rawCall behavior)) i s).cb.state = .open_ := by
  intro i
  induction i with
  | zero => intro s _ _ hi; omega
  | succ j ih =>
    intro s hc hcount _
    obtain ⟨e, he⟩ := hb s.rawCount
    have hstep := cbWrapCall_closed_error now behavior s hc e he
    show (iterCalls (cbWrapCall now (rawCall behavior)) j
      (cbWrapCall now (rawCall behavior) s).2).cb.state = .open_
    rw [hstep]
    rcases Nat.eq_zero_or_pos j with hj | hj
    · subst hj
      rw [on_failure_of_ge s.cb now (by omega)]
      simp [iterCalls]
    · rw [on_failure_of_lt s.cb now (by omega)]
      exact ih _ hc (by simp; omega) hj

/-- Invariant of all reachable system states: the breaker keeps its
configured threshold, and whenever it is OPEN its failure count has reached
the threshold and a failure time is recorded. -/
theorem reach_invariant (T tmo : Nat) (s : SysState) (h : ReachSt T tmo s) :
    s.cb.failure_threshold = T ∧
    (s.cb.state = .open_ →
      T ≤ s.cb.failure_count ∧ ∃ t, s.cb.last_failure_time = some t) := by
  induction h with
  | init rc fc => simp [CircuitBreaker.fresh]
  | step now behavior s hs ih =>
    have ihT := ih.1
    by_cases hrej : s.cb.state = .open_ ∧ ¬ s.cb.should_attempt_reset now
    · simpa [cbWrapCall, hrej] using ih
    · by_cases ho : s.cb.state = .open_
      · simp only [ho, true_and, not_not] at hrej
        cases hbe : behavior s.rawCount with
        | ok v =>
          simp [cbWrapCall, ho, hrej, rawCall, hbe, CircuitBreaker.on_success, ihT]
        | error e =>
          rcases Nat.lt_or_ge (s.cb.failure_count + 1) s.cb.failure_threshold with hth | hth
          · rw [ihT] at hth
            simp [cbWrapCall, ho, hrej, rawCall, hbe, CircuitBreaker.on_failure,
              Nat.not_le.mpr hth, ihT]
          · rw [ihT] at hth
            simp [cbWrapCall, ho, hrej, rawCall, hbe, CircuitBreaker.on_failure, hth, ihT]
      · cases hbe : behavior s.rawCount with
        | ok v =>
          simp [cbWrapCall, hrej, ho, rawCall, hbe, CircuitBreaker.on_success, ihT]
        | error e =>
          rcases Nat.lt_or_ge (s.cb.failure_count + 1) s.cb.failure_threshold with hth | hth
          · rw [ihT] at hth
            simp [cbWrapCall, hrej, ho, rawCall, hbe, CircuitBreaker.on_failure,
              Nat.not_le.mpr hth, ihT]
          · rw [ihT] at hth
            simp [cbWrapCall, hrej, ho, rawCall, hbe, CircuitBreaker.on_failure, hth, ihT]

/-- C5: on a reachable breaker in the OPEN state, once the timeout has
elapsed since the recorded failure time the next call is attempted (the
raw invocation counter increases — the transient state during the trial is
HALF_OPEN); a successful trial closes the breaker and zeroes the failure
count; a failing trial re-opens it with the failure time refreshed. -/
theorem circuit_breaker_half_open_trial
    (T tmo : Nat) (s : SysState) (hreach : ReachSt T tmo s)
    (hs : s.cb.state = .open_) (t : Nat) (ht : s.cb.last_failure_time = some t)
    (now : Nat) (helapsed : t + s.cb.timeout ≤ now)
    (behavior : Nat → Except PyErr Nat) :
    (cbWrapCall now (rawCall behavior) s).2.rawCount = s.rawCount + 1
    ∧ (∀ v, behavior s.rawCount = .ok v →
        (cbWrapCall now (rawCall behavior) s).1 = .ok v
        ∧ (cbWrapCall now (rawCall behavior) s).2.cb.state = .closed
        ∧ (cbWrapCall now (rawCall behavior) s).2.cb.failure_count = 0)
    ∧ (∀ e, behavior s.rawCount = .error e →
        (cbWrapCall now (rawCall behavior) s).1 = .error e
        ∧ (cbWrapCall now (rawCall behavior) s).2.cb.state = .open_
        ∧ (cbWrapCall now (rawCall behavior) s).2.cb.last_failure_time = some now) := by
  have hres : s.cb.should_attempt_reset now = true := by
    simp [CircuitBreaker.should_attempt_reset, ht]
    omega
  have hrej : ¬ (s.cb.state = .open_ ∧ ¬ s.cb.should_attempt_reset now) := by
    simp [hres]
  obtain ⟨ihT, hOpen⟩ := reach_invariant T tmo s hreach
  obtain ⟨hcnt, -⟩ := hOpen hs
  refine ⟨?_, ?_, ?_⟩
  · cases hbe : behavior s.rawCount with
    | ok v => simp [cbWrapCall, hrej, hs, hres, rawCall, hbe]
    | error e => simp [cbWrapCall, hrej, hs, hres, rawCall, hbe]
  · intro v hbe
    simp [cbWrapCall, hrej, hs, hres, rawCall, hbe, CircuitBreaker.on_success]
  · intro e hbe
    have hth : s.cb.failure_threshold ≤ s.cb.failure_count + 1 := by omega
    simp [cbWrapCall, hrej, hs, hres, rawCall, hbe, CircuitBreaker.on_failure, hth]

/-- Witness for C5: a breaker with threshold 1 opened by one failure at
time 0; at time 60 the trial call succeeds and closes it. -/
theorem circuit_breaker_half_open_trial_witness :
    ((cbWrapCall 60 (rawCall fun _ => .ok 7)
        (cbWrapCall 0 (rawCall fun n => .error (.underlying n))
          { cb := .fresh 1 60, rawCount := 0, fbCount := 0 }).2).2.rawCount =
      (cbWrapCall 0 (rawCall fun n => .error (.underlying n))
          { cb := .fresh 1 60, rawCount := 0, fbCount := 0 }).2.rawCount + 1)
    ∧ (∀ v, (fun (_ : Nat) => (.ok 7 : Except PyErr Nat))
          (cbWrapCall 0 (rawCall fun n => .error (.underlying n))
            { cb := .fresh 1 60, rawCount := 0, fbCount := 0 }).2.rawCount = .ok v →
        (cbWrapCall 60 (rawCall fun _ => .ok 7)
          (cbWrapCall 0 (rawCall fun n => .error (.underlying n))
            { cb := .fresh 1 60, rawCount := 0, fbCount := 0 }).2).1 = .ok v
        ∧ (cbWrapCall 60 (rawCall fun _ => .ok 7)
            (cbWrapCall 0 (rawCall fun n => .error (.underlying n))
              { cb := .fresh 1 60, rawCount := 0, fbCount := 0 }).2).2.cb.state = .closed
        ∧ (cbWrapCall 60 (rawCall fun _ => .ok 7)
            (cbWrapCall 0 (rawCall fun n => .error (.underlying n))
              { cb := .fresh 1 60, rawCount := 0, fbCount := 0 }).2).2.cb.failure_count = 0)
    ∧ (∀ e, (fun (_ : Nat) => (.ok 7 : Except PyErr Nat))
          (cbWrapCall 0 (rawCall fun n => .error (.underlying n))
            { cb := .fresh 1 60, rawCount := 0, fbCount := 0 }).2.rawCount = .error e →
        (cbWrapCall 60 (rawCall fun _ => .ok 7)
          (cbWrapCall 0 (rawCall fun n => .error (.underlying n))
            { cb := .fresh 1 60, rawCount := 0, fbCount := 0 }).2).1 = .error e
        ∧ (cbWrapCall 60 (rawCall fun _ => .ok 7)
            (cbWrapCall 0 (rawCall fun n => .error (.underlying n))
              { cb := .fresh 1 60, rawCount := 0, fbCount := 0 }).2).2.cb.state = .open_
        ∧ (cbWrapCall 60 (rawCall fun _ => .ok 7)
            (cbWrapCall 0 (rawCall fun n => .error (.underlying n))
              { cb := .fresh 1 60, rawCount := 0, fbCount := 0 }).2).2.cb.last_failure_time =
          some 60) :=
  circuit_breaker_half_open_trial 1 60
    (cbWrapCall 0 (rawCall fun n => .error (.underlying n))
      { cb := .fresh 1 60, rawCount := 0, fbCount := 0 }).2
    (ReachSt.step 0 (fun n => .error (.underlying n)) _ (ReachSt.init 0 0))
    (by decide) 0 (by decide) 60 (by decide) (fun _ => .ok 7)

/-- C2: after failure_threshold consecutive failures from a fresh breaker
the state is OPEN, and any call attempted while OPEN before the timeout has
elapsed since the last failure raises the circuit-open Exception with the
whole system state — in particular the inner call's invocation counter —
unchanged. -/
theorem circuit_breaker_opens_and_rejects
    (T tmo now : Nat) (hT : 1 ≤ T)
    (behavior : Nat → Except PyErr Nat) (hb : ∀ n, ∃ e, behavior n = .error e)
    (rc fc : Nat)
    (s : SysState) (hs : s.cb.state = .open_) (t : Nat)
    (ht : s.cb.last_failure_time = some t) (now2 : Nat)
    (hlt : now2 - t < s.cb.timeout) :
    (iterCalls (cbWrapCall now (rawCall behavior)) T
        { cb := .fresh T tmo, rawCount := rc, fbCount := fc }).cb.state = .open_
    ∧ cbWrapCall now2 (rawCall behavior) s = (.error .circuitOpen, s) := by
  constructor
  · exact iter_fail_opens now behavior hb T
      { cb := .fresh T tmo, rawCount := rc, fbCount := fc } rfl (by simp [CircuitBreaker.fresh]) hT
  · have hres : s.cb.should_attempt_reset now2 = false := by
      simp [CircuitBreaker.should_attempt_reset, ht]
      omega
    simp [cbWrapCall, hs, hres]

/-- Witness for C2 at threshold 2, timeout 60: two failures at time 0 open
the breaker, and a call at time 10 is rejected without touching the
state. -/
theorem circuit_breaker_opens_and_rejects_witness :
    (iterCalls (cbWrapCall 0 (rawCall fun n => .error (.underlying n))) 2
        { cb := .fresh 2 60, rawCount := 0, fbCount := 0 }).cb.state = .open_
    ∧ cbWrapCall 10 (rawCall fun n => .error (.underlying n))
        { cb := { failure_threshold := 2, timeout := 60, failure_count := 2,
                  last_failure_time := some 0, state := .open_ },
          rawCount := 2, fbCount := 0 } =
      (.error .circuitOpen,
        { cb := { failure_threshold := 2, timeout := 60, failure_count := 2,
                  last_failure_time := some 0, state := .open_ },
          rawCount := 2, fbCount := 0 }) :=
  circuit_breaker_opens_and_rejects 2 60 0 (by decide)
    (fun n => .error (.underlying n)) (fun n => ⟨.underlying n, rfl⟩) 0 0
    { cb := { failure_threshold := 2, timeout := 60, failure_count := 2,
              last_failure_time := some 0, state := .open_ },
      rawCount := 2, fbCount := 0 }
    rfl 0 rfl 10 (by decide)

/-- C1 counterexample: with breaker threshold 2, three retry attempts and a
succeeding fallback strategy, the composition the code builds differs from
the composition the claim states: under the code's nesting the raw call is
invoked only twice (the breaker, sitting inside the retry loop, rejects the
third attempt), while under the claimed CircuitBreaker-outermost nesting it
would be invoked once. -/
theorem resilient_order_counterexample :
    resilient_function 0 3 true (some [cexStrategy]) (rawCall cexFailBehavior) cexStart
      ≠ specOrderWrap 0 3 [cexStrategy] (rawCall cexFailBehavior) cexStart
    ∧ (resilient_function 0 3 true (some [cexStrategy])
        (rawCall cexFailBehavior) cexStart).2.rawCount = 2
    ∧ (specOrderWrap 0 3 [cexStrategy] (rawCall cexFailBehavior) cexStart).2.rawCount = 1 := by
  decide

/-- C1 amended: the composed wrapped call applies the components in the
fixed nesting order FallbackChain outermost, then RetryExecutor, then
CircuitBreaker, then the raw call (so each retry attempt re-enters the
breaker, and the fallback chain applies only after retries are exhausted);
the concrete conjuncts exhibit this: the breaker trips during the retries
and the fallback then supplies the result. -/
theorem resilient_order (now max_attempts : Nat) (strategies : List (StCall Nat))
    (func : StCall Nat) :
    resilient_function now max_attempts true (some strategies) func
      = fallbackSt (retryWrapCall max_attempts (cbWrapCall now func)) strategies
    ∧ resilient_function now max_attempts true none func
      = retryWrapCall max_attempts (cbWrapCall now func)
    ∧ resilient_function now max_attempts false (some strategies) func
      = fallbackSt (retryWrapCall max_attempts func) strategies
    ∧ (resilient_function 0 3 true (some [cexStrategy])
        (rawCall cexFailBehavior) cexStart).1 = .ok 100
    ∧ (resilient_function 0 3 true (some [cexStrategy])
        (rawCall cexFailBehavior) cexStart).2.cb.state = .open_
    ∧ (resilient_function 0 3 true (some [cexStrategy])
        (rawCall cexFailBehavior) cexStart).2.fbCount = 1 :=
  ⟨rfl, rfl, rfl, by decide, by decide, by decide⟩

/-- C3 counterexample: with three attempts over an always-failing call the
retry wrapper raises the third underlying failure itself — not a
RetryExhaustedError wrapping it, which would be a different exception
value. -/
theorem retry_exhaustion_counterexample :
    retryRun (fun n => .error (.underlying n)) (fun n => (n : ℚ) + 1) 3
      = (.error (.underlying 2), 3, [1, 2])
    ∧ (Except.error (PyErr.underlying 2) : Except PyErr Nat)
        ≠ .error (.retryExhausted (.underlying 2)) := by
  constructor
  · simp [retryRun, retryGo]
    norm_num
  · decide

/-- C3 amended: with max_attempts = 3 and a call failing on every
invocation, the inner call is invoked exactly 3 times, the wrapper
re-raises the 3rd failure itself, and delays are applied only after the
first and second attempts — none after the final one. -/
theorem retry_exhaustion_reraises_last
    (calls : Nat → Except PyErr Nat) (errs : Nat → PyErr)
    (hc : ∀ n, calls n = .error (errs n)) (delay : Nat → ℚ) :
    retryRun calls delay 3 = (.error (errs 2), 3, [delay 0, delay 1]) := by
  simp [retryRun, retryGo, hc]

/-- Witness for C3 amended at a concrete always-failing call. -/
theorem retry_exhaustion_reraises_last_witness :
    retryRun (fun n => .error (.underlying n)) (fun n => (n : ℚ)) 3
      = (.error (.underlying 2), 3, [(0 : ℚ), 1]) :=
  retry_exhaustion_reraises_last (fun n => .error (.underlying n))
    (fun n => .underlying n) (fun _ => rfl) (fun n => (n : ℚ))

/-- Strategies whose outcomes are all failures are exhausted one by one,
ending in the fixed all-strategies-failed Exception. -/
theorem try_fb_all_fail (strategies : List (Except PyErr Nat))
    (hall : ∀ x ∈ strategies, ∃ er, x = .error er) :
    FallbackManager.try_fallback_strategies strategies = .error .allStrategiesFailed := by
  induction strategies with
  | nil => rfl
  | cons x rest ih =>
    obtain ⟨er, hx⟩ := hall x (by simp)
    subst hx
    simpa [FallbackManager.try_fallback_strategies] using
      ih (fun y hy => hall y (by simp [hy]))

/-- The first succeeding strategy, in registration order, supplies the
result. -/
theorem try_fb_first_ok (pre post : List (Except PyErr Nat)) (v : Nat)
    (hpre : ∀ x ∈ pre, ∃ er, x = .error er) :
    FallbackManager.try_fallback_strategies (pre ++ .ok v :: post) = .ok v := by
  induction pre with
  | nil => rfl
  | cons x rest ih =>
    obtain ⟨er, hx⟩ := hpre x (by simp)
    subst hx
    simpa [FallbackManager.try_fallback_strategies] using
      ih (fun y hy => hpre y (by simp [hy]))

/-- C4 counterexample: two runs whose failure reasons differ (primary
underlying 1 with strategy underlying 2, versus primary underlying 7 with
strategy underlying 8) raise the very same exception value, so the raised
error aggregates no failure reasons. -/
theorem fallback_aggregation_counterexample :
    FallbackManager.execute_with_fallback (.error (.underlying 1)) [.error (.underlying 2)]
      = .error .allStrategiesFailed
    ∧ FallbackManager.execute_with_fallback (.error (.underlying 7)) [.error (.underlying 8)]
      = .error .allStrategiesFailed
    ∧ FallbackManager.execute_with_fallback (.error (.underlying 1)) [.error (.underlying 2)]
      = FallbackManager.execute_with_fallback (.error (.underlying 7)) [.error (.underlying 8)]
    ∧ (PyErr.underlying 1, PyErr.underlying 2) ≠ (PyErr.underlying 7, PyErr.underlying 8) := by
  decide

/-- C4 amended: when the primary call fails the strategies are tried in
registration order and the first success supplies the result; when the
primary and every strategy fail, a fixed all-strategies-failed Exception is
raised that carries no failure reasons; a successful primary bypasses the
strategies. -/
theorem fallback_order_and_fixed_failure
    (e : PyErr) (pre post : List (Except PyErr Nat)) (v : Nat)
    (hpre : ∀ x ∈ pre, ∃ er, x = .error er)
    (strategies : List (Except PyErr Nat))
    (hall : ∀ x ∈ strategies, ∃ er, x = .error er) (w : Nat) :
    FallbackManager.execute_with_fallback (.error e) (pre ++ .ok v :: post) = .ok v
    ∧ FallbackManager.execute_with_fallback (.error e) strategies
        = .error .allStrategiesFailed
    ∧ FallbackManager.execute_with_fallback (.ok w) strategies = .ok w :=
  ⟨try_fb_first_ok pre post v hpre, try_fb_all_fail strategies hall, rfl⟩

/-- Witness for C4 amended: one failing strategy before the succeeding one,
and a separate all-failing run. -/
theorem fallback_order_and_fixed_failure_witness :
    FallbackManager.execute_with_fallback (.error (.underlying 0))
        ([.error (.underlying 10)] ++ .ok 5 :: [.ok 9]) = .ok 5
    ∧ FallbackManager.execute_with_fallback (.error (.underlying 0))
        [.error (.underlying 10), .error (.underlying 11)] = .error .allStrategiesFailed
    ∧ FallbackManager.execute_with_fallback (.ok 3)
        [.error (.underlying 10), .error (.underlying 11)] = .ok 3 :=
  fallback_order_and_fixed_failure (.underlying 0) [.error (.underlying 10)] [.ok 9] 5
    (by intro x hx; simp at hx; exact ⟨.underlying 10, hx⟩)
    [.error (.underlying 10), .error (.underlying 11)]
    (by
      intro x hx
      simp at hx
      rcases hx with hx | hx
      · exact ⟨.underlying 10, hx⟩
      · exact ⟨.underlying 11, hx⟩) 3

/-- C7: recording a failed outcome (an unhealthy report or a raised
exception) increments the failure count by one and re-evaluates the status
by thresholds — Unavailable at 5 and above, Failing at 3 and above, and
Degraded at 1 and above (below 3); one successful outcome resets to Healthy
with a zero count. -/
theorem health_check_thresholds (h : ServiceHealth) (outcome : Except PyErr Bool)
    (hfail : outcome = .ok false ∨ ∃ e, outcome = .error e) :
    (check_service_health h outcome).failure_count = h.failure_count + 1
    ∧ (5 ≤ h.failure_count + 1 → (check_service_health h outcome).status = .unavailable)
    ∧ (3 ≤ h.failure_count + 1 → h.failure_count + 1 < 5 →
        (check_service_health h outcome).status = .failing)
    ∧ (1 ≤ h.failure_count + 1 → h.failure_count + 1 < 3 →
        (check_service_health h outcome).status = .degraded)
    ∧ check_service_health h (.ok true) = { status := .healthy, failure_count := 0 } := by
  have hout : check_service_health h outcome = handle_service_failure h := by
    rcases hfail with h1 | ⟨e, h2⟩ <;> subst_vars <;> rfl
  rw [hout]
  refine ⟨?_, ?_, ?_, ?_, rfl⟩
  · simp only [handle_service_failure]
    split_ifs <;> rfl
  · intro h5
    simp only [handle_service_failure]
    rw [if_pos h5]
  · intro h3 h5
    simp only [handle_service_failure]
    rw [if_neg (by omega), if_pos h3]
  · intro h1 h3
    simp only [handle_service_failure]
    rw [if_neg (by omega), if_neg (by omega)]

/-- Witness for C7: a service with two recorded failures receives a third
unhealthy report and becomes Failing. -/
theorem health_check_thresholds_witness :
    (check_service_health { status := .degraded, failure_count := 2 }
        (.ok false)).failure_count = 2 + 1
    ∧ (5 ≤ 2 + 1 → (check_service_health { status := .degraded, failure_count := 2 }
        (.ok false)).status = .unavailable)
    ∧ (3 ≤ 2 + 1 → 2 + 1 < 5 → (check_service_health
        { status := .degraded, failure_count := 2 } (.ok false)).status = .failing)
    ∧ (1 ≤ 2 + 1 → 2 + 1 < 3 → (check_service_health
        { status := .degraded, failure_count := 2 } (.ok false)).status = .degraded)
    ∧ check_service_health { status := .degraded, failure_count := 2 } (.ok true)
        = { status := .healthy, failure_count := 0 } :=
  health_check_thresholds { status := .degraded, failure_count := 2 } (.ok false)
    (Or.inl rfl)

/-- C8: the exponential backoff delay is min(base times 2 to the attempt,
max_delay) — concretely 1, 2, ..., 32 and clipped to 60 from attempt 6 with
the defaults; the linear backoff delay is base plus attempt times
increment; the fixed strategy returns the constant delay; and the jittered
delay is the unjittered delay times a factor 1/2 + r which, for any draw r
in [0, 1), lies in [1/2, 3/2). -/
theorem backoff_and_jitter (n : Nat) (base max_delay increment d r : ℚ)
    (hr0 : 0 ≤ r) (hr1 : r < 1) :
    RetryStrategy.exponential_backoff n base max_delay = min (base * 2 ^ n) max_delay
    ∧ RetryStrategy.exponential_backoff n 1 60 = min (2 ^ n) 60
    ∧ RetryStrategy.exponential_backoff 0 1 60 = 1
    ∧ RetryStrategy.exponential_backoff 1 1 60 = 2
    ∧ RetryStrategy.exponential_backoff 5 1 60 = 32
    ∧ RetryStrategy.exponential_backoff 6 1 60 = 60
    ∧ RetryStrategy.linear_backoff n base increment = base + n * increment
    ∧ RetryStrategy.linear_backoff n 1 1 = n + 1
    ∧ RetryStrategy.fixed_delay n d = d
    ∧ apply_jitter d r = d * (1 / 2 + r)
    ∧ 1 / 2 ≤ 1 / 2 + r ∧ 1 / 2 + r < 3 / 2 := by
  refine ⟨rfl, by simp [RetryStrategy.exponential_backoff],
    by norm_num [RetryStrategy.exponential_backoff],
    by norm_num [RetryStrategy.exponential_backoff],
    by norm_num [RetryStrategy.exponential_backoff],
    by norm_num [RetryStrategy.exponential_backoff],
    rfl, by simp [RetryStrategy.linear_backoff, add_comm], rfl, rfl, by linarith, by linarith⟩

/-- Witness for C8 at attempt 4 and draw r = 1/4. -/
theorem backoff_and_jitter_witness :
    RetryStrategy.exponential_backoff 4 1 60 = min ((1 : ℚ) * 2 ^ 4) 60
    ∧ RetryStrategy.exponential_backoff 4 1 60 = min ((2 : ℚ) ^ 4) 60
    ∧ RetryStrategy.exponential_backoff 0 1 60 = 1
    ∧ RetryStrategy.exponential_backoff 1 1 60 = 2
    ∧ RetryStrategy.exponential_backoff 5 1 60 = 32
    ∧ RetryStrategy.exponential_backoff 6 1 60 = 60
    ∧ RetryStrategy.linear_backoff 4 1 2 = 1 + ((4 : Nat) : ℚ) * 2
    ∧ RetryStrategy.linear_backoff 4 1 1 = ((4 : Nat) : ℚ) + 1
    ∧ RetryStrategy.fixed_delay 4 (7 : ℚ) = 7
    ∧ apply_jitter 7 (1 / 4) = 7 * (1 / 2 + 1 / 4)
    ∧ (1 : ℚ) / 2 ≤ 1 / 2 + 1 / 4 ∧ (1 : ℚ) / 2 + 1 / 4 < 3 / 2 :=
  backoff_and_jitter 4 1 60 2 7 (1 / 4) (by norm_num) (by norm_num)

/-- C9 counterexample: the trace of a closed-breaker call shows the inner
invocation strictly between the lock acquisition and its release — the lock
IS held across the inner call, contradicting the claim that it guards only
state transitions. -/
theorem lock_scope_counterexample :
    cbCallEvents (CircuitBreaker.fresh 5 60) 0
      = [.acquire, .invokeInner, .stateUpdate, .release]
    ∧ heldDuringInner (cbCallEvents (CircuitBreaker.fresh 5 60) 0) 0 = true := by
  decide

/-- C9 amended: the breaker's per-instance lock is held for the whole
wrapper body: every trace starts by acquiring and ends by releasing the
lock, and whenever the inner call is invoked the invocation happens while
the lock is held, so a slow inner call does block other callers of the same
breaker. -/
theorem lock_held_across_inner (cb : CircuitBreaker) (now : Nat) :
    (LockEvent.invokeInner ∈ cbCallEvents cb now →
      heldDuringInner (cbCallEvents cb now) 0 = true)
    ∧ (cbCallEvents cb now).head? = some .acquire
    ∧ (cbCallEvents cb now).getLast? = some .release := by
  unfold cbCallEvents
  by_cases h : cb.state = .open_ ∧ ¬ cb.should_attempt_reset now
  · simp only [if_pos h]
    decide
  · simp only [if_neg h]
    decide

/-- Witness for C9 amended on a fresh breaker, whose trace does invoke the
inner call. -/
theorem lock_held_across_inner_witness :
    heldDuringInner (cbCallEvents (CircuitBreaker.fresh 3 60) 0) 0 = true
    ∧ (cbCallEvents (CircuitBreaker.fresh 3 60) 0).head? = some .acquire
    ∧ (cbCallEvents (CircuitBreaker.fresh 3 60) 0).getLast? = some .release :=
  ⟨(lock_held_across_inner (CircuitBreaker.fresh 3 60) 0).1 (by decide),
    (lock_held_across_inner (CircuitBreaker.fresh 3 60) 0).2.1,
    (lock_held_across_inner (CircuitBreaker.fresh 3 60) 0).2.2⟩

end RagResilience

namespace RagMemOpt

/-! Helper lemmas about the LRU cache. -/

theorem any_key_iff (l : List (Nat × Option Nat)) (k : Nat) :
    l.any (fun p => p.1 == k) = true ↔ k ∈ l.map Prod.fst := by
  simp

theorem length_eraseP_of_any (l : List (Nat × Option Nat)) (k : Nat)
    (h : l.any (fun p => p.1 == k) = true) :
    (l.eraseP (fun p => p.1 == k)).length + 1 = l.length := by
  rw [List.any_eq_true] at h
  obtain ⟨x, hx, hpx⟩ := h
  exact List.length_eraseP_add_one hx hpx

theorem lookup_eq_none_of_not_mem_keys (l : List (Nat × Option Nat)) (k : Nat)
    (h : k ∉ l.map Prod.fst) : l.lookup k = none := by
  induction l with
  | nil => rfl
  | cons x rest ih =>
    simp only [List.map_cons, List.mem_cons, not_or] at h
    have hk : (k == x.1) = false := beq_eq_false_iff_ne.mpr h.1
    cases x with
    | mk a b =>
      simp only [List.lookup, hk]
      exact ih h.2

theorem not_mem_keys_eraseP (l : List (Nat × Option Nat)) (k : Nat)
    (h : (l.map Prod.fst).Nodup) :
    k ∉ ((l.eraseP (fun p => p.1 == k)).map Prod.fst) := by
  induction l with
  | nil => simp
  | cons x rest ih =>
    simp only [List.map_cons, List.nodup_cons] at h
    by_cases hx : x.1 = k
    · rw [List.eraseP_cons_of_pos (by simp [hx])]
      rw [hx] at h
      exact h.1
    · rw [List.eraseP_cons_of_neg (by simp [hx])]
      simp only [List.map_cons, List.mem_cons, not_or]
      exact ⟨fun hk => hx hk.symm, ih h.2⟩

theorem nodup_keys_eraseP (l : List (Nat × Option Nat)) (p : Nat × Option Nat → Bool)
    (h : (l.map Prod.fst).Nodup) : ((l.eraseP p).map Prod.fst).Nodup :=
  ((l.eraseP_sublist).map Prod.fst).nodup h

theorem keys_eraseP_subset (l : List (Nat × Option Nat)) (p : Nat × Option Nat → Bool) :
    ((l.eraseP p).map Prod.fst) ⊆ l.map Prod.fst :=
  ((l.eraseP_sublist).map Prod.fst).subset

theorem put_cache_of_mem (c : LRUCache) (now k : Nat) (v : Option Nat)
    (h : c.mem k = true) :
    (c.put now k v).cache = c.cache.eraseP (fun p => p.1 == k) ++ [(k, v)] := by
  simp only [LRUCache.put, LRUCache.mem] at h ⊢
  simp [h]

theorem put_cache_of_evict (c : LRUCache) (now k : Nat) (v : Option Nat)
    (hm : c.mem k = false) (hf : c.max_size ≤ c.cache.length)
    (p : Nat × Option Nat) (rest : List (Nat × Option Nat)) (hc : c.cache = p :: rest) :
    (c.put now k v).cache = rest ++ [(k, v)] := by
  have hm2 : ((p :: rest).any fun q => q.1 == k) = false := by
    rw [← hc]
    exact hm
  have hf2 : c.max_size ≤ rest.length + 1 := by
    rw [hc] at hf
    simpa using hf
  simp [LRUCache.put, LRUCache.mem, LRUCache.remove, hc, hm2, hf2, List.eraseP_cons]

theorem put_cache_of_new (c : LRUCache) (now k : Nat) (v : Option Nat)
    (hm : c.mem k = false) (hf : c.cache.length < c.max_size) :
    (c.put now k v).cache = c.cache ++ [(k, v)] := by
  simp only [LRUCache.put, LRUCache.mem] at hm ⊢
  simp [hm, Nat.not_le.mpr hf]

theorem get_cache_miss (c : LRUCache) (now k : Nat) (h : c.mem k = false) :
    c.get now k = (none, { c with misses := c.misses + 1 }) := by
  simp [LRUCache.get, h]

theorem get_cache_hit (c : LRUCache) (now k : Nat) (hm : c.mem k = true)
    (httl : ¬ (c.ttl.getD 0 ≠ 0 ∧ c.ttl.getD 0 < now - tsLookup k c.timestamps)) :
    c.get now k = ((c.cache.lookup k).getD none,
      { c with
        cache := c.cache.eraseP (fun p => p.1 == k) ++ [(k, (c.cache.lookup k).getD none)]
        hits := c.hits + 1 }) := by
  simp [LRUCache.get, hm, httl]

end RagMemOpt

namespace RagMemOpt

theorem length_put_le (c : LRUCache) (now k : Nat) (v : Option Nat)
    (hmax : 1 ≤ c.max_size) (hlen : c.cache.length ≤ c.max_size) :
    (c.put now k v).cache.length ≤ c.max_size := by
  by_cases hm : c.mem k = true
  · rw [put_cache_of_mem c now k v hm]
    have := length_eraseP_of_any c.cache k hm
    simp only [List.length_append, List.length_cons, List.length_nil]
    omega
  · have hm2 : c.mem k = false := by
      simpa using hm
    rcases Nat.lt_or_ge c.cache.length c.max_size with hf | hf
    · rw [put_cache_of_new c now k v hm2 hf]
      simp only [List.length_append, List.length_cons, List.length_nil]
      omega
    · cases hc : c.cache with
      | nil =>
        rw [hc] at hf
        simp at hf
        omega
      | cons p rest =>
        rw [put_cache_of_evict c now k v hm2 hf p rest hc]
        have : c.cache.length = rest.length + 1 := by
          rw [hc]
          simp
        simp only [List.length_append, List.length_cons, List.length_nil]
        omega

theorem length_get_le (c : LRUCache) (now k : Nat) :
    (c.get now k).2.cache.length ≤ c.cache.length := by
  by_cases hm : c.mem k = true
  · by_cases httl : (c.ttl.getD 0 ≠ 0 ∧ c.ttl.getD 0 < now - tsLookup k c.timestamps)
    · simp only [LRUCache.get, hm, httl, LRUCache.remove]
      simp [httl]
      exact c.cache.length_eraseP_le
    · rw [get_cache_hit c now k hm httl]
      have := length_eraseP_of_any c.cache k hm
      simp only [List.length_append, List.length_cons, List.length_nil]
      omega
  · rw [get_cache_miss c now k (by simpa using hm)]

theorem put_max_size (c : LRUCache) (now k : Nat) (v : Option Nat) :
    (c.put now k v).max_size = c.max_size := by
  simp only [LRUCache.put]
  split
  · rfl
  · split
    · split <;> rfl
    · rfl

theorem put_ttl (c : LRUCache) (now k : Nat) (v : Option Nat) :
    (c.put now k v).ttl = c.ttl := by
  simp only [LRUCache.put]
  split
  · rfl
  · split
    · split <;> rfl
    · rfl

theorem get_max_size (c : LRUCache) (now k : Nat) :
    (c.get now k).2.max_size = c.max_size := by
  simp only [LRUCache.get]
  split
  · rfl
  · split <;> rfl

theorem get_ttl (c : LRUCache) (now k : Nat) :
    (c.get now k).2.ttl = c.ttl := by
  simp only [LRUCache.get]
  split
  · rfl
  · split <;> rfl

theorem applyOp_max_size (c : LRUCache) (op : CacheOp) :
    (applyOp c op).max_size = c.max_size := by
  cases op with
  | get now k => exact get_max_size c now k
  | put now k v => exact put_max_size c now k v
  | clear => rfl

theorem applyOps_length_le (max : Nat) (hmax : 1 ≤ max) :
    ∀ (ops : List CacheOp) (c : LRUCache), c.max_size = max →
      c.cache.length ≤ max → (applyOps c ops).cache.length ≤ max := by
  intro ops
  induction ops with
  | nil =>
    intro c _ hl
    simpa [applyOps] using hl
  | cons op rest ih =>
    intro c hm hl
    show (applyOps (applyOp c op) rest).cache.length ≤ max
    refine ih (applyOp c op) (by rw [applyOp_max_size, hm]) ?_
    cases op with
    | get now k => exact le_trans (length_get_le c now k) hl
    | put now k v =>
      have := length_put_le c now k v (by omega) (by omega)
      simpa [applyOp, hm] using this
    | clear => simp [applyOp, LRUCache.clear]

end RagMemOpt

namespace RagMemOpt

theorem mem_put_self (c : LRUCache) (now k : Nat) (v : Option Nat) :
    (c.put now k v).mem k = true := by
  simp only [LRUCache.mem, LRUCache.put]
  simp

theorem put_cache_of_empty (c : LRUCache) (now k : Nat) (v : Option Nat)
    (_hm : c.mem k = false) (hf : c.max_size ≤ c.cache.length) (hc : c.cache = []) :
    (c.put now k v).cache = [(k, v)] := by
  have hf2 : c.max_size ≤ 0 := by
    rw [hc] at hf
    simpa using hf
  simp [LRUCache.put, LRUCache.mem, hc, hf2]

theorem lookup_put_self (c : LRUCache) (now k : Nat) (v : Option Nat)
    (h : (c.cache.map Prod.fst).Nodup) :
    (c.put now k v).cache.lookup k = some v := by
  have happ : ∀ (X : List (Nat × Option Nat)), k ∉ X.map Prod.fst →
      (X ++ [(k, v)]).lookup k = some v := by
    intro X hX
    rw [List.lookup_append, lookup_eq_none_of_not_mem_keys X k hX]
    simp [List.lookup]
  by_cases hm : c.mem k = true
  · rw [put_cache_of_mem c now k v hm]
    exact happ _ (not_mem_keys_eraseP c.cache k h)
  · have hm2 : c.mem k = false := by
      simpa using hm
    have hk : k ∉ c.cache.map Prod.fst := by
      intro hk
      rw [← any_key_iff] at hk
      rw [LRUCache.mem] at hm2
      rw [hm2] at hk
      exact Bool.false_ne_true hk
    rcases Nat.lt_or_ge c.cache.length c.max_size with hf | hf
    · rw [put_cache_of_new c now k v hm2 hf]
      exact happ _ hk
    · cases hc : c.cache with
      | nil =>
        rw [put_cache_of_empty c now k v hm2 hf hc]
        simp [List.lookup]
      | cons p rest =>
        rw [put_cache_of_evict c now k v hm2 hf p rest hc]
        refine happ _ ?_
        intro hk2
        refine hk ?_
        rw [hc]
        simp only [List.map_cons, List.mem_cons]
        exact Or.inr hk2

theorem nodup_keys_put (c : LRUCache) (now k : Nat) (v : Option Nat)
    (h : (c.cache.map Prod.fst).Nodup) :
    ((c.put now k v).cache.map Prod.fst).Nodup := by
  have happ : ∀ (X : List (Nat × Option Nat)), (X.map Prod.fst).Nodup →
      k ∉ X.map Prod.fst → ((X ++ [(k, v)]).map Prod.fst).Nodup := by
    intro X hX hk
    simp only [List.map_append, List.map_cons, List.map_nil]
    rw [List.nodup_append]
    exact ⟨hX, List.nodup_singleton k, by simpa using hk⟩
  by_cases hm : c.mem k = true
  · rw [put_cache_of_mem c now k v hm]
    exact happ _ (nodup_keys_eraseP c.cache _ h) (not_mem_keys_eraseP c.cache k h)
  · have hm2 : c.mem k = false := by
      simpa using hm
    have hk : k ∉ c.cache.map Prod.fst := by
      intro hk
      rw [← any_key_iff] at hk
      rw [LRUCache.mem] at hm2
      rw [hm2] at hk
      exact Bool.false_ne_true hk
    rcases Nat.lt_or_ge c.cache.length c.max_size with hf | hf
    · rw [put_cache_of_new c now k v hm2 hf]
      exact happ _ h hk
    · cases hc : c.cache with
      | nil =>
        rw [put_cache_of_empty c now k v hm2 hf hc]
        simp
      | cons p rest =>
        rw [put_cache_of_evict c now k v hm2 hf p rest hc]
        have hrest : (rest.map Prod.fst).Nodup := by
          rw [hc] at h
          simp only [List.map_cons, List.nodup_cons] at h
          exact h.2
        refine happ _ hrest ?_
        intro hk2
        refine hk ?_
        rw [hc]
        simp only [List.map_cons, List.mem_cons]
        exact Or.inr hk2

theorem nodup_keys_get (c : LRUCache) (now k : Nat)
    (h : (c.cache.map Prod.fst).Nodup) :
    ((c.get now k).2.cache.map Prod.fst).Nodup := by
  by_cases hm : c.mem k = true
  · by_cases httl : (c.ttl.getD 0 ≠ 0 ∧ c.ttl.getD 0 < now - tsLookup k c.timestamps)
    · simp only [LRUCache.get, hm, httl, LRUCache.remove]
      simp [httl]
      exact nodup_keys_eraseP c.cache _ h
    · rw [get_cache_hit c now k hm httl]
      simp only [List.map_append, List.map_cons, List.map_nil]
      rw [List.nodup_append]
      refine ⟨nodup_keys_eraseP c.cache _ h, List.nodup_singleton k, ?_⟩
      simpa using not_mem_keys_eraseP c.cache k h
  · rw [get_cache_miss c now k (by simpa using hm)]
    exact h

theorem get_put_none (c : LRUCache) (now now2 k : Nat)
    (h : (c.cache.map Prod.fst).Nodup) :
    ((c.put now k none).get now2 k).1 = none := by
  have hmem := mem_put_self c now k none
  by_cases httl : ((c.put now k none).ttl.getD 0 ≠ 0 ∧
      (c.put now k none).ttl.getD 0 < now2 - tsLookup k (c.put now k none).timestamps)
  · simp [LRUCache.get, hmem, httl]
  · rw [get_cache_hit _ now2 k hmem httl]
    simp [lookup_put_self c now k none h]

theorem memoCalls_spec (now : Nat) (func : Nat → Option Nat) (a : Nat)
    (max_size : Nat) (ttl : Option Nat) (hf : func a = none) :
    ∀ m, (memoCalls now func a max_size ttl m).2 = m
      ∧ ((memoCalls now func a max_size ttl m).1.cache.map Prod.fst).Nodup
      ∧ ((memoCalls now func a max_size ttl m).1.get now a).1 = none := by
  intro m
  induction m with
  | zero =>
    refine ⟨rfl, by simp [memoCalls, LRUCache.init], ?_⟩
    simp [memoCalls, LRUCache.init, LRUCache.get, LRUCache.mem]
  | succ m ih =>
    obtain ⟨ihn, ihnd, ihget⟩ := ih
    have hstep : memoCalls now func a max_size ttl (m + 1)
        = (((memoCalls now func a max_size ttl m).1.get now a).2.put now a none,
           (memoCalls now func a max_size ttl m).2 + 1) := by
      simp only [memoCalls, memoApply, ihget, hf]
    refine ⟨?_, ?_, ?_⟩
    · rw [hstep]
      simpa using ihn
    · rw [hstep]
      exact nodup_keys_put _ now a none (nodup_keys_get _ now a ihnd)
    · rw [hstep]
      exact get_put_none _ now now a (nodup_keys_get _ now a ihnd)

end RagMemOpt

namespace RagMemOpt

/-- C6: over any operation sequence on a cache with max_size at least 1 the
entry count never exceeds max_size; a put of a new key at capacity evicts
exactly the least-recently-used entry (the head of the recency order) and
appends the new entry as most recently used; and recency is updated both by
a get that hits and by a put of an existing key, each of which moves the
key to the most-recently-used position. -/
theorem lru_cache_invariants
    (max : Nat) (ttl : Option Nat) (hmax : 1 ≤ max) (ops : List CacheOp)
    (c : LRUCache) (now k : Nat) (v : Option Nat)
    (hmem : c.mem k = false) (hfull : c.max_size ≤ c.cache.length)
    (p : Nat × Option Nat) (rest : List (Nat × Option Nat)) (hc : c.cache = p :: rest)
    (c2 : LRUCache) (now2 k2 : Nat) (hmem2 : c2.mem k2 = true)
    (httl2 : ¬ (c2.ttl.getD 0 ≠ 0 ∧ c2.ttl.getD 0 < now2 - tsLookup k2 c2.timestamps))
    (c3 : LRUCache) (now3 k3 : Nat) (v3 : Option Nat) (hmem3 : c3.mem k3 = true) :
    (applyOps (LRUCache.init max ttl) ops).cache.length ≤ max
    ∧ (c.put now k v).cache = rest ++ [(k, v)]
    ∧ (c2.get now2 k2).2.cache
        = c2.cache.eraseP (fun q => q.1 == k2) ++ [(k2, (c2.cache.lookup k2).getD none)]
    ∧ (c3.put now3 k3 v3).cache
        = c3.cache.eraseP (fun q => q.1 == k3) ++ [(k3, v3)] := by
  refine ⟨applyOps_length_le max hmax ops _ rfl (by simp [LRUCache.init]),
    put_cache_of_evict c now k v hmem hfull p rest hc,
    ?_, put_cache_of_mem c3 now3 k3 v3 hmem3⟩
  rw [get_cache_hit c2 now2 k2 hmem2 httl2]

/-- Witness for C6: a two-entry cache at capacity 2 evicts its oldest entry
on a new put, a hit on key 1 moves it to the most-recently-used position,
and a four-operation history stays within capacity. -/
theorem lru_cache_invariants_witness :
    (applyOps (LRUCache.init 2 none)
        [.put 0 1 (some 10), .put 0 2 (some 20), .get 1 1,
          .put 1 3 (some 30)]).cache.length ≤ 2
    ∧ (LRUCache.put
        { max_size := 2, ttl := none, cache := [(1, some 10), (2, some 20)],
          timestamps := [(1, 0), (2, 0)], hits := 0, misses := 0 } 1 3
        (some 30)).cache = [(2, some 20)] ++ [(3, some 30)]
    ∧ (LRUCache.get
        { max_size := 2, ttl := none, cache := [(1, some 10), (2, some 20)],
          timestamps := [(1, 0), (2, 0)], hits := 0, misses := 0 } 1 1).2.cache
        = [(1, some 10), (2, some 20)].eraseP (fun q => q.1 == 1)
            ++ [(1, ([(1, some 10), (2, some 20)].lookup 1).getD none)]
    ∧ (LRUCache.put
        { max_size := 2, ttl := none, cache := [(1, some 10), (2, some 20)],
          timestamps := [(1, 0), (2, 0)], hits := 0, misses := 0 } 1 2
        (some 99)).cache
        = [(1, some 10), (2, some 20)].eraseP (fun q => q.1 == 2)
            ++ [(2, some 99)] :=
  lru_cache_invariants 2 none (by decide)
    [.put 0 1 (some 10), .put 0 2 (some 20), .get 1 1, .put 1 3 (some 30)]
    { max_size := 2, ttl := none, cache := [(1, some 10), (2, some 20)],
      timestamps := [(1, 0), (2, 0)], hits := 0, misses := 0 }
    1 3 (some 30) (by decide) (by decide) (1, some 10) [(2, some 20)] (by decide)
    { max_size := 2, ttl := none, cache := [(1, some 10), (2, some 20)],
      timestamps := [(1, 0), (2, 0)], hits := 0, misses := 0 }
    1 1 (by decide) (by decide)
    { max_size := 2, ttl := none, cache := [(1, some 10), (2, some 20)],
      timestamps := [(1, 0), (2, 0)], hits := 0, misses := 0 }
    1 2 (some 99) (by decide)

/-- C10: a get after put(key, None) returns None, exactly as a get on a key
never stored — a stored None is indistinguishable from a miss at the get
interface; consequently the memory_optimized wrapper never serves a cached
result for a call whose function returned None: after m wrapper calls on
such an argument the function has been invoked m times. -/
theorem none_value_indistinguishable_from_miss
    (c : LRUCache) (now now2 k : Nat) (hnd : (c.cache.map Prod.fst).Nodup)
    (func : Nat → Option Nat) (a : Nat) (hf : func a = none)
    (max_size : Nat) (ttl : Option Nat) (m : Nat) :
    ((c.put now k none).get now2 k).1 = none
    ∧ ((LRUCache.init max_size ttl).get now2 k).1 = none
    ∧ (memoCalls now func a max_size ttl m).2 = m :=
  ⟨get_put_none c now now2 k hnd,
    by simp [LRUCache.init, LRUCache.get, LRUCache.mem],
    (memoCalls_spec now func a max_size ttl hf m).1⟩

/-- Witness for C10: a concrete cache holding key 5, a function returning
None, and three wrapper calls each re-invoking it. -/
theorem none_value_indistinguishable_from_miss_witness :
    ((LRUCache.put
        { max_size := 2, ttl := none, cache := [(5, some 1)],
          timestamps := [(5, 0)], hits := 0, misses := 0 } 0 5 none).get 1 5).1 = none
    ∧ ((LRUCache.init 100 none).get 1 5).1 = none
    ∧ (memoCalls 0 (fun _ => none) 4 100 none 3).2 = 3 :=
  none_value_indistinguishable_from_miss
    { max_size := 2, ttl := none, cache := [(5, some 1)],
      timestamps := [(5, 0)], hits := 0, misses := 0 }
    0 1 5 (by decide) (fun _ => none) 4 rfl 100 none 3

end RagMemOpt

